import Mathlib

/-!
# Verification of fk-converter's option-resolution and progress pipeline

A shallow embedding, in Lean 4, of the core of `converter/converter.go`
from the fk-converter repository: the quality/codec lookup tables,
`ValidateOptions`, `ResolveOutput`, `buildFFmpegArgs`, `parseProgress`,
`isValidResolution`, `resolveScale` and `getExtension`, together with
theorems settling the specification's claims about them.

Go `map` indexing returns the zero value for an absent key; the embeddings
of `crfMap[...]` and `codecMap[...]` reproduce this with a `getD` default.
Go strings are modelled as Lean `String`; `time.Duration` (an `int64`
count of nanoseconds) is modelled as `Int`, with the two's-complement
wrap-around of 64-bit multiplication made explicit where the Go code can
overflow; `float64` percentages are modelled exactly as rationals (`Rat`),
which agrees with the Go arithmetic at every value the claims name.
-/

namespace FKConverter

/-- The `Options` struct of `converter.go` (the `Quality` named string type
is modelled as `String`, the type it is defined to be in Go). -/
structure Options where
  Input      : String
  Output     : String
  Format     : String
  Quality    : String
  Resolution : String
  Codec      : String
deriving Repr, DecidableEq

/-- `crfMap`: the quality → CRF table of `converter.go` lines 24–29. -/
def crfMap : List (String × Int) :=
  [("low", 28), ("medium", 23), ("high", 18), ("lossless", 0)]

/-- Lookup in `crfMap` with Go map-index semantics: the zero value `0`
is produced for an absent key. -/
def crfIndex (q : String) : Int :=
  ((crfMap.find? (fun p => p.1 == q)).map Prod.snd).getD 0

/-- `supportedFormats` of `converter.go` lines 31–37 (the set of keys of
the Go `map[string]bool`). -/
def supportedFormats : List String := ["mp4", "mkv", "webm", "avi", "mov"]

/-- `codecMap`: the codec → encoder-library table of `converter.go`
lines 39–43. -/
def codecMap : List (String × String) :=
  [("h264", "libx264"), ("h265", "libx265"), ("vp9", "libvpx-vp9")]

/-- Lookup in `codecMap` with Go map-index semantics: the zero value `""`
is produced for an absent key. -/
def codecIndex (c : String) : String :=
  ((codecMap.find? (fun p => p.1 == c)).map Prod.snd).getD ""

/-- `isValidResolution` (`converter.go` lines 221–231): either one of six
named presets, or a match of the regexp `^\d+x\d+$`.  The regexp is
embedded directly: a string matches iff it consists of one or more digits,
one `x`, and one or more digits — equivalently, splitting its characters
on `x` yields exactly two parts, both non-empty and all-digit. -/
def resolutionPresets : List String :=
  ["2160p", "1440p", "1080p", "720p", "480p", "360p"]

/-- Go's `strings.Split` with a one-character separator (the only shape
the repository uses: it splits on `"."` and on `"x"`), over the character
list.  `strings.Split` always yields at least one part; splitting the
empty string yields `[""]`. -/
def splitOnChar (sep : Char) : List Char → List (List Char)
  | [] => [[]]
  | c :: rest =>
    match splitOnChar sep rest with
    | [] => [[]]
    | h :: t => if c == sep then [] :: h :: t else (c :: h) :: t

def splitString (s : String) (sep : Char) : List String :=
  (splitOnChar sep s.toList).map String.mk

def matchesWxH (s : String) : Bool :=
  match splitOnChar 'x' s.toList with
  | [a, b] => !a.isEmpty && !b.isEmpty && a.all Char.isDigit && b.all Char.isDigit
  | _ => false

def isValidResolution (res : String) : Bool :=
  resolutionPresets.contains res || matchesWxH res

/-- The per-field validation error of `ValidateOptions`.  In Go each
rejection is a distinct `fmt.Errorf` message; each constructor here stands
for one of those five message sites, carrying the offending value. -/
inductive ValidationError where
  | InputNotFound      (input : String)
  | UnsupportedFormat  (format : String)
  | UnsupportedCodec   (codec : String)
  | UnsupportedQuality (quality : String)
  | InvalidResolution  (resolution : String)
deriving Repr, DecidableEq

/-- `ValidateOptions` (`converter.go` lines 64–92).  The `os.Stat`
existence check is abstracted by the predicate `fsExists` on paths.
Checks run in source order, returning the first failure. -/
def ValidateOptions (fsExists : String → Bool) (opts : Options) : Option ValidationError :=
  if !fsExists opts.Input then
    some (.InputNotFound opts.Input)
  else if opts.Format != "" && !supportedFormats.contains opts.Format then
    some (.UnsupportedFormat opts.Format)
  else if opts.Codec != "" && !(codecMap.find? (fun p => p.1 == opts.Codec)).isSome then
    some (.UnsupportedCodec opts.Codec)
  else if opts.Quality != "" && !(crfMap.find? (fun p => p.1 == opts.Quality)).isSome then
    some (.UnsupportedQuality opts.Quality)
  else if opts.Resolution != "" && !isValidResolution opts.Resolution then
    some (.InvalidResolution opts.Resolution)
  else
    none

/-- `getExtension` (`converter.go` lines 249–255): the part after the last
`.`, or `""` when the name has no `.`. -/
def getExtension (filename : String) : String :=
  let parts := splitString filename '.'
  if parts.length > 1 then parts.getLastD "" else ""

/-- Go's `strings.TrimSuffix`: drop `suffix` from the end when present. -/
def trimSuffix (s suffix : String) : String :=
  if suffix.toList.isSuffixOf s.toList then
    String.mk (s.toList.take (s.toList.length - suffix.toList.length))
  else s

/-- `ResolveOutput` (`converter.go` lines 94–114), as a pure function on
the options record (the Go function mutates `opts` in place; each of its
four statements reads the record the previous one left, so the function
is the composition of the four steps in source order). -/
def resolveStep1 (opts : Options) : Options :=
  if opts.Output != "" && opts.Format == "" then
    let parts := splitString opts.Output '.'
    if parts.length > 1 then { opts with Format := parts.getLastD "" } else opts
  else opts

def resolveStep2 (opts : Options) : Options :=
  if opts.Format == "" then { opts with Format := "mp4" } else opts

def resolveStep3 (opts : Options) : Options :=
  if opts.Output == "" then
    let base := trimSuffix opts.Input ("." ++ getExtension opts.Input)
    { opts with Output := base ++ "_converted." ++ opts.Format }
  else opts

def resolveStep4 (opts : Options) : Options :=
  if opts.Quality == "" then { opts with Quality := "medium" } else opts

def ResolveOutput (opts : Options) : Options :=
  resolveStep4 (resolveStep3 (resolveStep2 (resolveStep1 opts)))

/-- Go's `strings.Contains(s, pat)`: `pat` occurs as a contiguous
substring of `s`. -/
def strContains (s pat : String) : Bool :=
  decide (List.IsInfix pat.toList s.toList)

/-- `resolveScale` (`converter.go` lines 233–247): six named presets map
to `scale=-2:<height>`; otherwise the string is split on `x` and the Go
code formats `scale=%s:%s` from `parts[0]` and `parts[1]` (indexing that
presupposes a valid `WxH`, as the Go code does). -/
def scalePresets : List (String × String) :=
  [("2160p", "scale=-2:2160"), ("1440p", "scale=-2:1440"), ("1080p", "scale=-2:1080"),
   ("720p", "scale=-2:720"), ("480p", "scale=-2:480"), ("360p", "scale=-2:360")]

def resolveScale (res : String) : String :=
  match scalePresets.find? (fun p => p.1 == res) with
  | some p => p.2
  | none =>
    let parts := splitString res 'x'
    "scale=" ++ parts.getD 0 "" ++ ":" ++ parts.getD 1 ""

/-- The codec-selection block of `buildFFmpegArgs` (`converter.go` lines
152–157): explicit codec maps through `codecMap` (with Go zero-value
default), else `webm` selects `libvpx-vp9`, else `libx264`. -/
def selectCodec (opts : Options) : String :=
  if opts.Codec != "" then codecIndex opts.Codec
  else if opts.Format == "webm" then "libvpx-vp9"
  else "libx264"

/-- The rate-factor block of `buildFFmpegArgs` (`converter.go` lines
161–166): when the codec-library name contains `vpx`, the zero-bitrate
companion flag accompanies `-crf`. -/
def crfArgs (codec : String) (crf : Int) : List String :=
  if strContains codec "vpx" then ["-crf", toString crf, "-b:v", "0"]
  else ["-crf", toString crf]

/-- The resolution block of `buildFFmpegArgs` (`converter.go` lines
170–173). -/
def scaleArgs (opts : Options) : List String :=
  if opts.Resolution != "" then ["-vf", resolveScale opts.Resolution] else []

/-- `buildFFmpegArgs` (`converter.go` lines 149–177), with the successive
`append`s of the Go code written as one concatenation in the same order. -/
def buildFFmpegArgs (opts : Options) : List String :=
  ["-i", opts.Input, "-y", "-progress", "pipe:2", "-nostats", "-c:v", selectCodec opts]
    ++ crfArgs (selectCodec opts) (crfIndex opts.Quality)
    ++ ["-c:a", "aac", "-b:a", "128k"]
    ++ scaleArgs opts
    ++ [opts.Output]

/-! ## Progress stream parser

`parseProgress` (`converter.go` lines 199–219) scans the stream line by
line; `timeRegex` is `out_time_us=(\d+)`.  `FindStringSubmatch` returns
the leftmost match: the first occurrence of the literal `out_time_us=`
followed by at least one digit, capturing the maximal digit run after it.
`strconv.ParseInt(_, 10, 64)` on a digit-only capture fails exactly when
the value exceeds `math.MaxInt64`.  `time.Duration(us) * time.Microsecond`
is 64-bit signed multiplication, which wraps; the percentage is
`current / total * 100`, clamped above at 100 only. -/

/-- The capture of `timeRegex` on one line: at the leftmost position where
the literal `out_time_us=` is followed by at least one digit, the maximal
digit run after the literal. -/
def findMarker : List Char → Option (List Char)
  | [] => none
  | c :: rest =>
    if ("out_time_us=".toList).isPrefixOf (c :: rest) then
      let ds := ((c :: rest).drop 12).takeWhile Char.isDigit
      if ds.isEmpty then findMarker rest else some ds
    else findMarker rest

/-- The numeric value of a digit string. -/
def digitsVal (ds : List Char) : Nat :=
  ds.foldl (fun acc c => acc * 10 + (c.toNat - 48)) 0

/-- `strconv.ParseInt(s, 10, 64)` on a non-empty digit-only string:
the value when it fits in a signed 64-bit integer, `none` (an error in
Go) otherwise. -/
def parseInt64 (ds : List Char) : Option Int :=
  if digitsVal ds ≤ 9223372036854775807 then some (digitsVal ds : Int) else none

/-- Two's-complement wrap of an integer into the `int64` range, as Go's
overflowing signed multiplication produces. -/
def int64wrap (n : Int) : Int :=
  let m := n % (2 ^ 64)
  if m ≥ 2 ^ 63 then m - 2 ^ 64 else m

/-- The body of `parseProgress`'s loop for one line, given the total
duration in nanoseconds: `some p` when the callback is invoked with
percentage `p`, `none` when the line is skipped.  `current` is
`time.Duration(us) * time.Microsecond`, the wrapped 64-bit product
`us * 1000`; the percentage is exact rational arithmetic — the Go
`float64` expression `float64(current)/float64(total)*100` is modelled by
the exact rational `current * 100 / total` (written `Rat.divInt`, which
equals `(current : Rat) / total * 100`); the two agree at every value the
claims mention. -/
def processLine (total : Int) (line : String) : Option Rat :=
  match findMarker line.toList with
  | none => none
  | some ds =>
    match parseInt64 ds with
    | none => none
    | some us =>
      let current : Int := int64wrap (us * 1000)
      let percent : Rat := Rat.divInt (current * 100) total
      some (if percent > 100 then 100 else percent)

/-- `parseProgress` over a whole stream: the sequence of percentages the
callback receives, in order. -/
def parseProgress (lines : List String) (total : Int) : List Rat :=
  lines.filterMap (processLine total)

/-! ## Convert's probe handling and stream dispatch

`Convert` (`converter.go` lines 116–147): a `probeDuration` error makes
`totalDuration` zero and the conversion proceeds; the stderr stream is
handed to `parseProgress` only when a callback was supplied *and* the
total duration is positive, and is otherwise drained (`io.Copy` to
`io.Discard`) without interpretation. -/

/-- What `Convert` does with the encoder's diagnostic stream. -/
inductive StreamAction where
  | parsed (percents : List Rat)
  | drained
deriving Repr, DecidableEq

/-- The probe-and-dispatch logic of `Convert`, with the external
`probeDuration` call abstracted by its result (`.ok d` a parsed duration
in nanoseconds, `.error e` a process or parse failure) and the callback
abstracted by its presence.  Mirrors lines 117–120 and 136–140 of
`converter.go`. -/
def convertStream (probeResult : Except String Int) (hasCallback : Bool)
    (lines : List String) : StreamAction :=
  let totalDuration : Int :=
    match probeResult with
    | .ok d => d
    | .error _ => 0
  if hasCallback && totalDuration > 0 then .parsed (parseProgress lines totalDuration)
  else .drained

/-! ## Helper lemmas -/

/-- A list sitting between two others is an infix of the concatenation. -/
lemma middle_isInfix {α : Type} (A m B : List α) {l : List α} (h : l <+: m) :
    l <:+: A ++ m ++ B := by
  obtain ⟨t, rfl⟩ := h
  exact ⟨A, t ++ B, by simp⟩

/-- Whether two given strings occur adjacently, in order, in a list. -/
def hasPair (a b : String) : List String → Bool
  | x :: y :: rest => (x == a && y == b) || hasPair a b (y :: rest)
  | _ => false

lemma hasPair_iff (a b : String) : ∀ l : List String, hasPair a b l = true ↔ [a, b] <:+: l := by
  intro l
  induction l with
  | nil => simp [hasPair]
  | cons x t ih =>
    cases t with
    | nil =>
      simp [hasPair, List.infix_cons_iff, List.cons_prefix_cons]
    | cons y rest =>
      rw [hasPair]
      constructor
      · intro h
        rcases (show (x = a ∧ y = b) ∨ hasPair a b (y :: rest) = true by simpa using h) with
          ⟨hx, hy⟩ | h2
        · subst hx; subst hy
          exact ⟨[], rest, rfl⟩
        · obtain ⟨s, t, heq⟩ := ih.mp h2
          exact ⟨x :: s, t, by simp [heq]⟩
      · intro h
        obtain ⟨s, t, heq⟩ := h
        cases s with
        | nil =>
          simp only [List.nil_append, List.cons_append, List.cons.injEq] at heq
          obtain ⟨hx, hy, _⟩ := heq
          subst hx; subst hy
          simp
        | cons z s₂ =>
          simp only [List.cons_append, List.cons.injEq] at heq
          obtain ⟨_, heq₂⟩ := heq
          simp [ih.mpr ⟨s₂, t, heq₂⟩]

/-- `resolveScale` never yields the literal `-b:v`: its result always
starts with `scale=`. -/
lemma resolveScale_ne_bv (res : String) : (resolveScale res == "-b:v") = false := by
  unfold resolveScale
  cases hf : scalePresets.find? (fun p => p.1 == res) with
  | some p =>
    have hp := List.mem_of_find?_eq_some hf
    fin_cases hp <;> rfl
  | none =>
    apply beq_eq_false_iff_ne.mpr
    intro h
    have h2 := congrArg (fun s => s.data.head?) h
    have h3 : some 's' = some '-' := h2
    exact absurd h3 (by decide)

/-- The `-crf` flag and the table value sit adjacently in every built
argument list. -/
lemma crf_pair_in_args (opts : Options) :
    ["-crf", toString (crfIndex opts.Quality)] <:+: buildFFmpegArgs opts := by
  unfold buildFFmpegArgs
  have h : ["-crf", toString (crfIndex opts.Quality)] <+:
      crfArgs (selectCodec opts) (crfIndex opts.Quality) := by
    unfold crfArgs
    split
    · exact ⟨["-b:v", "0"], rfl⟩
    · exact ⟨[], rfl⟩
  simpa [List.append_assoc] using
    middle_isInfix ["-i", opts.Input, "-y", "-progress", "pipe:2", "-nostats", "-c:v",
      selectCodec opts]
      (crfArgs (selectCodec opts) (crfIndex opts.Quality))
      (["-c:a", "aac", "-b:a", "128k"] ++ scaleArgs opts ++ [opts.Output]) h

/-- The membership `(q, v) ∈ crfMap` determines the Go map lookup. -/
lemma crfIndex_of_mem {q : String} {v : Int} (h : (q, v) ∈ crfMap) : crfIndex q = v := by
  fin_cases h <;> decide

/-- The membership `(c, lib) ∈ codecMap` determines the Go map lookup. -/
lemma codecIndex_of_mem {c lib : String} (h : (c, lib) ∈ codecMap) : codecIndex c = lib := by
  fin_cases h <;> decide

/-- C1: for every request whose quality is one of the four presets, the
built argument list contains `-crf` immediately followed by the table
value: low→28, medium→23, high→18, lossless→0 (the table being `crfMap`
itself). -/
theorem crf_flag_matches_table (opts : Options) (v : Int)
    (hq : (opts.Quality, v) ∈ crfMap) :
    ["-crf", toString v] <:+: buildFFmpegArgs opts := by
  rw [← crfIndex_of_mem hq]
  exact crf_pair_in_args opts

/-- Witness for C1 at quality `high`. -/
theorem crf_flag_matches_table_app :
    ("high", (18 : Int)) ∈ crfMap ∧
      ["-crf", toString (18 : Int)] <:+:
        buildFFmpegArgs ⟨"in.mov", "out.mp4", "mp4", "high", "", ""⟩ :=
  ⟨by decide, crf_flag_matches_table ⟨"in.mov", "out.mp4", "mp4", "high", "", ""⟩ 18 (by decide)⟩

/-- C7 counterexample: the claim says an unrecognized codec or quality
reaching the builder is not quietly turned into a malformed argument
list; but at the concrete unvalidated request with codec `av1` and
quality `ultra` the builder silently emits an empty codec-library name
after `-c:v` and the defaulted rate factor `0` after `-crf` (the Go map
zero values). -/
theorem builder_emits_defaults_cex :
    buildFFmpegArgs ⟨"in.mp4", "out.mp4", "mp4", "ultra", "", "av1"⟩ =
      ["-i", "in.mp4", "-y", "-progress", "pipe:2", "-nostats", "-c:v", "", "-crf", "0",
       "-c:a", "aac", "-b:a", "128k", "out.mp4"] := by decide

/-- C7 amended: an unrecognized codec or quality value reaching the
builder is *not* treated as a contract violation — the builder quietly
emits the Go map zero values: the selected codec-library name is the
empty string and the rate factor is 0, and `-c:v ""` together with
`-crf 0` appear in the argument list. -/
theorem builder_defaults_on_unknown (opts : Options)
    (hc : opts.Codec ≠ "") (hcm : opts.Codec ∉ codecMap.map Prod.fst)
    (hqm : opts.Quality ∉ crfMap.map Prod.fst) :
    selectCodec opts = "" ∧ crfIndex opts.Quality = 0 ∧
      ["-c:v", "", "-crf", "0"] <:+: buildFFmpegArgs opts := by
  have hfind : codecMap.find? (fun p => p.1 == opts.Codec) = none := by
    rw [List.find?_eq_none]
    intro x hx hbeq
    exact hcm (List.mem_map.mpr ⟨x, hx, beq_iff_eq.mp hbeq⟩)
  have hsel : selectCodec opts = "" := by
    simp [selectCodec, codecIndex, hfind, hc]
  have hqfind : crfMap.find? (fun p => p.1 == opts.Quality) = none := by
    rw [List.find?_eq_none]
    intro x hx hbeq
    exact hqm (List.mem_map.mpr ⟨x, hx, beq_iff_eq.mp hbeq⟩)
  have hcrf : crfIndex opts.Quality = 0 := by
    simp [crfIndex, hqfind]
  refine ⟨hsel, hcrf, ?_⟩
  unfold buildFFmpegArgs
  rw [hsel, hcrf]
  have hvpx : strContains "" "vpx" = false := by decide
  rw [crfArgs, hvpx]
  exact ⟨["-i", opts.Input, "-y", "-progress", "pipe:2", "-nostats"],
    ["-c:a", "aac", "-b:a", "128k"] ++ scaleArgs opts ++ [opts.Output],
    by simp; rfl⟩

/-- Witness for the amended C7 at codec `av1`, quality `ultra`. -/
theorem builder_defaults_on_unknown_app :
    ("av1" ≠ "" ∧ "av1" ∉ codecMap.map Prod.fst ∧ "ultra" ∉ crfMap.map Prod.fst) ∧
      (selectCodec ⟨"in.mp4", "out.mp4", "mp4", "ultra", "", "av1"⟩ = "" ∧
        crfIndex "ultra" = 0 ∧
        ["-c:v", "", "-crf", "0"] <:+:
          buildFFmpegArgs ⟨"in.mp4", "out.mp4", "mp4", "ultra", "", "av1"⟩) :=
  ⟨⟨by decide, by decide, by decide⟩,
    builder_defaults_on_unknown ⟨"in.mp4", "out.mp4", "mp4", "ultra", "", "av1"⟩
      (by decide) (by decide) (by decide)⟩

/-- When the selected codec-library name does not contain `vpx`, the pair
`-b:v 0` appears nowhere in the built argument list. -/
lemma no_bv_pair (opts : Options) (h : strContains (selectCodec opts) "vpx" = false) :
    hasPair "-b:v" "0" (buildFFmpegArgs opts) = false := by
  unfold buildFFmpegArgs crfArgs scaleArgs
  rw [h]
  by_cases hr : opts.Resolution = ""
  · simp [hasPair, hr, resolveScale_ne_bv]
  · simp [hasPair, hr, resolveScale_ne_bv]

/-- C4: codec selection and the VP9 companion flag.  An explicitly set
codec maps through `codecMap` and wins; otherwise format `webm` selects
`libvpx-vp9`; otherwise `libx264`.  When the selected library name
contains `vpx`, the argument list carries `-crf <v> -b:v 0`; otherwise it
carries `-crf <v>` and the pair `-b:v 0` appears nowhere. -/
theorem codec_selection_vp9_companion :
    (∀ opts lib, (opts.Codec, lib) ∈ codecMap → selectCodec opts = lib)
  ∧ (∀ opts, opts.Codec = "" → opts.Format = "webm" → selectCodec opts = "libvpx-vp9")
  ∧ (∀ opts, opts.Codec = "" → opts.Format ≠ "webm" → selectCodec opts = "libx264")
  ∧ (∀ opts, strContains (selectCodec opts) "vpx" = true →
      ["-crf", toString (crfIndex opts.Quality), "-b:v", "0"] <:+: buildFFmpegArgs opts)
  ∧ (∀ opts, strContains (selectCodec opts) "vpx" = false →
      ["-crf", toString (crfIndex opts.Quality)] <:+: buildFFmpegArgs opts
      ∧ ¬ ["-b:v", "0"] <:+: buildFFmpegArgs opts) := by
  refine ⟨?_, ?_, ?_, ?_, ?_⟩
  · intro opts lib h
    have hne : opts.Codec ≠ "" := by
      intro h0
      rw [h0] at h
      simp [codecMap, Prod.ext_iff] at h
    simp only [selectCodec, bne_iff_ne, ne_eq, hne, not_false_eq_true, if_true]
    exact codecIndex_of_mem h
  · intro opts h1 h2
    simp [selectCodec, h1, h2]
  · intro opts h1 h2
    simp [selectCodec, h1, h2]
  · intro opts hv
    unfold buildFFmpegArgs
    have h : ["-crf", toString (crfIndex opts.Quality), "-b:v", "0"] <+:
        crfArgs (selectCodec opts) (crfIndex opts.Quality) := by
      simp [crfArgs, hv]
    simpa [List.append_assoc] using
      middle_isInfix ["-i", opts.Input, "-y", "-progress", "pipe:2", "-nostats", "-c:v",
        selectCodec opts]
        (crfArgs (selectCodec opts) (crfIndex opts.Quality))
        (["-c:a", "aac", "-b:a", "128k"] ++ scaleArgs opts ++ [opts.Output]) h
  · intro opts hv
    refine ⟨crf_pair_in_args opts, fun hin => ?_⟩
    have ht := (hasPair_iff "-b:v" "0" (buildFFmpegArgs opts)).mpr hin
    rw [no_bv_pair opts hv] at ht
    exact Bool.false_ne_true ht

/-- Witness for C4: the `webm` default selects the VP9 library and emits
the companion flag; an `mp4` request does not. -/
theorem codec_selection_vp9_companion_app :
    selectCodec ⟨"a.mov", "b.webm", "webm", "high", "", ""⟩ = "libvpx-vp9" ∧
      ["-crf", toString (crfIndex "high"), "-b:v", "0"] <:+:
        buildFFmpegArgs ⟨"a.mov", "b.webm", "webm", "high", "", ""⟩ ∧
      ¬ ["-b:v", "0"] <:+: buildFFmpegArgs ⟨"a.mov", "b.mp4", "mp4", "high", "", ""⟩ :=
  ⟨codec_selection_vp9_companion.2.1 ⟨"a.mov", "b.webm", "webm", "high", "", ""⟩ rfl rfl,
    codec_selection_vp9_companion.2.2.2.1 ⟨"a.mov", "b.webm", "webm", "high", "", ""⟩ (by decide),
    (codec_selection_vp9_companion.2.2.2.2 ⟨"a.mov", "b.mp4", "mp4", "high", "", ""⟩ (by decide)).2⟩

/-! ## Resolver lemmas -/

lemma resolveStep1_Input (o : Options) : (resolveStep1 o).Input = o.Input := by
  unfold resolveStep1
  dsimp only
  split
  · split <;> rfl
  · rfl

lemma resolveStep1_Output (o : Options) : (resolveStep1 o).Output = o.Output := by
  unfold resolveStep1
  dsimp only
  split
  · split <;> rfl
  · rfl

lemma resolveStep1_Quality (o : Options) : (resolveStep1 o).Quality = o.Quality := by
  unfold resolveStep1
  dsimp only
  split
  · split <;> rfl
  · rfl

lemma resolveStep1_Resolution (o : Options) : (resolveStep1 o).Resolution = o.Resolution := by
  unfold resolveStep1
  dsimp only
  split
  · split <;> rfl
  · rfl

lemma resolveStep1_Codec (o : Options) : (resolveStep1 o).Codec = o.Codec := by
  unfold resolveStep1
  dsimp only
  split
  · split <;> rfl
  · rfl

lemma resolveStep2_eq (o : Options) :
    resolveStep2 o = { o with Format := if o.Format = "" then "mp4" else o.Format } := by
  unfold resolveStep2
  split <;> simp_all

lemma resolveStep3_Format (o : Options) : (resolveStep3 o).Format = o.Format := by
  unfold resolveStep3; split <;> rfl

lemma resolveStep3_Input (o : Options) : (resolveStep3 o).Input = o.Input := by
  unfold resolveStep3; split <;> rfl

lemma resolveStep3_Quality (o : Options) : (resolveStep3 o).Quality = o.Quality := by
  unfold resolveStep3; split <;> rfl

lemma resolveStep3_Resolution (o : Options) : (resolveStep3 o).Resolution = o.Resolution := by
  unfold resolveStep3; split <;> rfl

lemma resolveStep3_Codec (o : Options) : (resolveStep3 o).Codec = o.Codec := by
  unfold resolveStep3; split <;> rfl

lemma resolveStep4_eq (o : Options) :
    resolveStep4 o = { o with Quality := if o.Quality = "" then "medium" else o.Quality } := by
  unfold resolveStep4
  split <;> simp_all

/-- After resolution the format field is never empty. -/
lemma resolve_format_ne (opts : Options) : (ResolveOutput opts).Format ≠ "" := by
  unfold ResolveOutput
  rw [resolveStep4_eq, resolveStep3_Format, resolveStep2_eq]
  split <;> simp_all

/-- After resolution the output field is never empty. -/
lemma resolve_output_ne (opts : Options) : (ResolveOutput opts).Output ≠ "" := by
  unfold ResolveOutput
  rw [resolveStep4_eq]
  show (resolveStep3 _).Output ≠ ""
  unfold resolveStep3
  split
  · simp [String.ext_iff]
  next h => simpa using h

/-- After resolution the quality field is never empty. -/
lemma resolve_quality_ne (opts : Options) : (ResolveOutput opts).Quality ≠ "" := by
  unfold ResolveOutput
  rw [resolveStep4_eq]
  split <;> simp_all

/-- C2: the resolver's steps, in source order.  (1) With a non-empty
output, an empty format, and a `.` in the output whose last segment is
non-empty, the resolved format is the substring after the last `.` —
taking priority over the `mp4` default.  (2) When the format is still
empty after that step (no `.`, or an empty last segment, or an empty
output), the resolved format is `mp4`.  (3) With an empty output the
resolved output is the input stem followed by `_converted.` and the
final resolved format.  (4) An empty quality resolves to `medium`.
Plus the claim's two concrete examples. -/
theorem resolver_steps :
    (∀ opts : Options, opts.Output ≠ "" → opts.Format = "" →
      (splitString opts.Output '.').length > 1 →
      (splitString opts.Output '.').getLastD "" ≠ "" →
      (ResolveOutput opts).Format = (splitString opts.Output '.').getLastD "")
  ∧ (∀ opts : Options, opts.Format = "" →
      ((splitString opts.Output '.').length ≤ 1 ∨ (splitString opts.Output '.').getLastD "" = "") →
      (ResolveOutput opts).Format = "mp4")
  ∧ (∀ opts : Options, opts.Output = "" →
      (ResolveOutput opts).Output =
        trimSuffix opts.Input ("." ++ getExtension opts.Input) ++ "_converted." ++
          (ResolveOutput opts).Format)
  ∧ (∀ opts : Options, opts.Quality = "" → (ResolveOutput opts).Quality = "medium")
  ∧ (ResolveOutput ⟨"video.mov", "clip.mkv", "", "", "", ""⟩).Format = "mkv"
  ∧ (ResolveOutput ⟨"movie.mov", "", "webm", "", "", ""⟩).Output = "movie_converted.webm" := by
  refine ⟨?_, ?_, ?_, ?_, by decide, by decide⟩
  · intro opts ho hf hlen hne
    have h1 : resolveStep1 opts =
        { opts with Format := (splitString opts.Output '.').getLastD "" } := by
      unfold resolveStep1
      dsimp only
      rw [if_pos, if_pos hlen]
      simp [ho, hf]
    have hne₂ : (splitString opts.Output '.').getLast?.getD "" ≠ "" := by
      simpa [List.getLastD_eq_getLast?] using hne
    simp [ResolveOutput, h1, resolveStep4_eq, resolveStep3_Format, resolveStep2_eq, hne₂]
  · intro opts hf hcond
    have h1 : (resolveStep1 opts).Format = "" := by
      unfold resolveStep1
      dsimp only
      rcases hcond with hlen | hlast
      · split
        · rw [if_neg (by omega)]
          exact hf
        · exact hf
      · split
        · split
          · simpa using hlast
          · exact hf
        · exact hf
    simp [ResolveOutput, resolveStep4_eq, resolveStep3_Format, resolveStep2_eq, h1]
  · intro opts ho
    have h1 : resolveStep1 opts = opts := by
      unfold resolveStep1
      dsimp only
      rw [if_neg]
      simp [ho]
    simp [ResolveOutput, h1, resolveStep2_eq, resolveStep3, resolveStep4_eq, ho]
  · intro opts hq
    simp [ResolveOutput, resolveStep4_eq, resolveStep3_Quality, resolveStep2_eq,
      resolveStep1_Quality, hq]

/-- Witness for C2's universally quantified steps at concrete requests. -/
theorem resolver_steps_app :
    (ResolveOutput ⟨"a.avi", "clip.mkv", "", "", "", ""⟩).Format =
        (splitString "clip.mkv" '.').getLastD "" ∧
      (ResolveOutput ⟨"a.avi", "clip", "", "", "", ""⟩).Format = "mp4" ∧
      (ResolveOutput ⟨"movie.mov", "", "webm", "", "", ""⟩).Output =
        trimSuffix "movie.mov" ("." ++ getExtension "movie.mov") ++ "_converted." ++
          (ResolveOutput ⟨"movie.mov", "", "webm", "", "", ""⟩).Format ∧
      (ResolveOutput ⟨"a.avi", "clip.mkv", "", "", "", ""⟩).Quality = "medium" :=
  ⟨resolver_steps.1 ⟨"a.avi", "clip.mkv", "", "", "", ""⟩ (by decide) rfl (by decide) (by decide),
    resolver_steps.2.1 ⟨"a.avi", "clip", "", "", "", ""⟩ rfl (by decide),
    resolver_steps.2.2.1 ⟨"movie.mov", "", "webm", "", "", ""⟩ rfl,
    resolver_steps.2.2.2.1 ⟨"a.avi", "clip.mkv", "", "", "", ""⟩ rfl⟩

/-- C9: resolving a request whose output, format and quality are all
already non-empty returns it unchanged. -/
theorem resolver_idempotent (opts : Options) (ho : opts.Output ≠ "")
    (hf : opts.Format ≠ "") (hq : opts.Quality ≠ "") : ResolveOutput opts = opts := by
  have h1 : resolveStep1 opts = opts := by
    unfold resolveStep1
    dsimp only
    rw [if_neg]
    simp [hf]
  have h2 : resolveStep2 opts = opts := by
    rw [resolveStep2_eq, if_neg hf]
  have h3 : resolveStep3 opts = opts := by
    unfold resolveStep3
    dsimp only
    rw [if_neg]
    simp [ho]
  have h4 : resolveStep4 opts = opts := by
    rw [resolveStep4_eq, if_neg hq]
  rw [ResolveOutput, h1, h2, h3, h4]

/-- Witness for C9 at a fully specified request. -/
theorem resolver_idempotent_app :
    ResolveOutput ⟨"a.mov", "b.mkv", "mkv", "high", "720p", "h265"⟩ =
      ⟨"a.mov", "b.mkv", "mkv", "high", "720p", "h265"⟩ :=
  resolver_idempotent ⟨"a.mov", "b.mkv", "mkv", "high", "720p", "h265"⟩
    (by decide) (by decide) (by decide)

/-! ## Validation lemmas -/

/-- The `find?` pattern of the Go map-membership tests, as membership of
the key list. -/
lemma find?_fst_isSome {β : Type} (l : List (String × β)) (c : String) :
    (l.find? (fun p => p.1 == c)).isSome = true ↔ c ∈ l.map Prod.fst := by
  rw [List.find?_isSome]
  simp [beq_iff_eq, List.mem_map]

/-- `ValidateOptions` succeeds exactly when the input exists and every
set field satisfies its rule. -/
lemma validate_none_iff (fs : String → Bool) (o : Options) :
    ValidateOptions fs o = none ↔
      fs o.Input = true
      ∧ (o.Format = "" ∨ o.Format ∈ supportedFormats)
      ∧ (o.Codec = "" ∨ o.Codec ∈ codecMap.map Prod.fst)
      ∧ (o.Quality = "" ∨ o.Quality ∈ crfMap.map Prod.fst)
      ∧ (o.Resolution = "" ∨ isValidResolution o.Resolution = true) := by
  unfold ValidateOptions
  split_ifs with h1 h2 h3 h4 h5 <;> simp_all [find?_fst_isSome] <;> tauto

/-- C8: validation rejects a set format outside the supported set, a set
codec outside the codec table, a set quality outside the four presets,
and a set resolution that is neither a preset nor `WxH` — each with its
own distinct error kind — and succeeds when the input exists and every
set field satisfies its rule.  (Checks run in source order, so each
rejection clause assumes the earlier fields pass.) -/
theorem validation_rules :
    (∀ (fs : String → Bool) (o : Options), fs o.Input = true →
      o.Format ≠ "" → o.Format ∉ supportedFormats →
      ValidateOptions fs o = some (.UnsupportedFormat o.Format))
  ∧ (∀ (fs : String → Bool) (o : Options), fs o.Input = true →
      (o.Format = "" ∨ o.Format ∈ supportedFormats) →
      o.Codec ≠ "" → o.Codec ∉ codecMap.map Prod.fst →
      ValidateOptions fs o = some (.UnsupportedCodec o.Codec))
  ∧ (∀ (fs : String → Bool) (o : Options), fs o.Input = true →
      (o.Format = "" ∨ o.Format ∈ supportedFormats) →
      (o.Codec = "" ∨ o.Codec ∈ codecMap.map Prod.fst) →
      o.Quality ≠ "" → o.Quality ∉ crfMap.map Prod.fst →
      ValidateOptions fs o = some (.UnsupportedQuality o.Quality))
  ∧ (∀ (fs : String → Bool) (o : Options), fs o.Input = true →
      (o.Format = "" ∨ o.Format ∈ supportedFormats) →
      (o.Codec = "" ∨ o.Codec ∈ codecMap.map Prod.fst) →
      (o.Quality = "" ∨ o.Quality ∈ crfMap.map Prod.fst) →
      o.Resolution ≠ "" → isValidResolution o.Resolution = false →
      ValidateOptions fs o = some (.InvalidResolution o.Resolution))
  ∧ (∀ (fs : String → Bool) (o : Options), fs o.Input = true →
      (o.Format = "" ∨ o.Format ∈ supportedFormats) →
      (o.Codec = "" ∨ o.Codec ∈ codecMap.map Prod.fst) →
      (o.Quality = "" ∨ o.Quality ∈ crfMap.map Prod.fst) →
      (o.Resolution = "" ∨ isValidResolution o.Resolution = true) →
      ValidateOptions fs o = none) := by
  refine ⟨?_, ?_, ?_, ?_, ?_⟩
  · intro fs o hfs hf hnm
    unfold ValidateOptions
    rw [if_neg (by simp [hfs]), if_pos (by simp [hf, hnm])]
  · intro fs o hfs hfok hc hcm
    have hsome : (codecMap.find? (fun p => p.1 == o.Codec)).isSome = false := by
      rw [← Bool.not_eq_true]
      intro hs
      exact hcm ((find?_fst_isSome codecMap o.Codec).mp hs)
    unfold ValidateOptions
    rw [if_neg (by simp [hfs]), if_neg (by rcases hfok with h | h <;> simp [h]),
      if_pos (by simp [hc, hsome])]
  · intro fs o hfs hfok hcok hq hqm
    have hsome : (crfMap.find? (fun p => p.1 == o.Quality)).isSome = false := by
      rw [← Bool.not_eq_true]
      intro hs
      exact hqm ((find?_fst_isSome crfMap o.Quality).mp hs)
    unfold ValidateOptions
    rw [if_neg (by simp [hfs]), if_neg (by rcases hfok with h | h <;> simp [h]),
      if_neg (by rcases hcok with h | h <;>
        simp [h, (find?_fst_isSome codecMap o.Codec).mpr]),
      if_pos (by simp [hq, hsome])]
  · intro fs o hfs hfok hcok hqok hr hbad
    unfold ValidateOptions
    rw [if_neg (by simp [hfs]), if_neg (by rcases hfok with h | h <;> simp [h]),
      if_neg (by rcases hcok with h | h <;>
        simp [h, (find?_fst_isSome codecMap o.Codec).mpr]),
      if_neg (by rcases hqok with h | h <;>
        simp [h, (find?_fst_isSome crfMap o.Quality).mpr]),
      if_pos (by simp [hr, hbad])]
  · intro fs o hfs hfok hcok hqok hrok
    exact (validate_none_iff fs o).mpr ⟨hfs, hfok, hcok, hqok, hrok⟩

/-- Witness for C8 at the spec's four bad values and one good request. -/
theorem validation_rules_app :
    ValidateOptions (fun _ => true) ⟨"a", "b", "flv", "", "", ""⟩ =
        some (.UnsupportedFormat "flv") ∧
      ValidateOptions (fun _ => true) ⟨"a", "b", "", "", "", "av1"⟩ =
        some (.UnsupportedCodec "av1") ∧
      ValidateOptions (fun _ => true) ⟨"a", "b", "", "ultra", "", ""⟩ =
        some (.UnsupportedQuality "ultra") ∧
      ValidateOptions (fun _ => true) ⟨"a", "b", "", "", "big", ""⟩ =
        some (.InvalidResolution "big") ∧
      ValidateOptions (fun _ => true) ⟨"a", "b", "mkv", "high", "720p", "vp9"⟩ = none :=
  ⟨validation_rules.1 (fun _ => true) ⟨"a", "b", "flv", "", "", ""⟩ rfl (by decide) (by decide),
    validation_rules.2.1 (fun _ => true) ⟨"a", "b", "", "", "", "av1"⟩ rfl (Or.inl rfl)
      (by decide) (by decide),
    validation_rules.2.2.1 (fun _ => true) ⟨"a", "b", "", "ultra", "", ""⟩ rfl (Or.inl rfl)
      (Or.inl rfl) (by decide) (by decide),
    validation_rules.2.2.2.1 (fun _ => true) ⟨"a", "b", "", "", "big", ""⟩ rfl (Or.inl rfl)
      (Or.inl rfl) (Or.inl rfl) (by decide) (by decide),
    validation_rules.2.2.2.2 (fun _ => true) ⟨"a", "b", "mkv", "high", "720p", "vp9"⟩ rfl
      (Or.inr (by decide)) (Or.inr (by decide)) (Or.inr (by decide)) (Or.inr (by decide))⟩

/-- C6: once a request has been resolved and has passed validation, its
output, format and quality are non-empty, the format is in the supported
set, a set codec is in the codec table, and a set resolution is a preset
or matches `WxH`. -/
theorem resolved_request_invariants (fs : String → Bool) (opts : Options)
    (h : ValidateOptions fs (ResolveOutput opts) = none) :
    (ResolveOutput opts).Output ≠ ""
    ∧ (ResolveOutput opts).Format ∈ supportedFormats
    ∧ (ResolveOutput opts).Quality ≠ ""
    ∧ ((ResolveOutput opts).Codec ≠ "" →
        (ResolveOutput opts).Codec ∈ codecMap.map Prod.fst)
    ∧ ((ResolveOutput opts).Resolution ≠ "" →
        isValidResolution (ResolveOutput opts).Resolution = true) := by
  obtain ⟨hfs, hf, hc, hq, hr⟩ := (validate_none_iff fs (ResolveOutput opts)).mp h
  refine ⟨resolve_output_ne opts, ?_, resolve_quality_ne opts, ?_, ?_⟩
  · rcases hf with hf | hf
    · exact absurd hf (resolve_format_ne opts)
    · exact hf
  · intro hne
    rcases hc with hc | hc
    · exact absurd hc hne
    · exact hc
  · intro hne
    rcases hr with hr | hr
    · exact absurd hr hne
    · exact hr

/-- Witness for C6 at a minimal request that resolves and validates. -/
theorem resolved_request_invariants_app :
    ValidateOptions (fun _ => true) (ResolveOutput ⟨"a.mov", "", "", "", "", ""⟩) = none ∧
      ((ResolveOutput ⟨"a.mov", "", "", "", "", ""⟩).Output ≠ ""
        ∧ (ResolveOutput ⟨"a.mov", "", "", "", "", ""⟩).Format ∈ supportedFormats
        ∧ (ResolveOutput ⟨"a.mov", "", "", "", "", ""⟩).Quality ≠ ""
        ∧ ((ResolveOutput ⟨"a.mov", "", "", "", "", ""⟩).Codec ≠ "" →
            (ResolveOutput ⟨"a.mov", "", "", "", "", ""⟩).Codec ∈ codecMap.map Prod.fst)
        ∧ ((ResolveOutput ⟨"a.mov", "", "", "", "", ""⟩).Resolution ≠ "" →
            isValidResolution (ResolveOutput ⟨"a.mov", "", "", "", "", ""⟩).Resolution = true)) :=
  ⟨by decide, resolved_request_invariants (fun _ => true) ⟨"a.mov", "", "", "", "", ""⟩ (by decide)⟩

/-! ## Convert and progress-parser claims -/

/-- C5: a probe failure is non-fatal — the stream is still handled, by
draining; the parser runs only when a callback is present and the probed
duration is positive, so no percentage is computed from a zero or unknown
duration. -/
theorem probe_failure_nonfatal :
    (∀ (e : String) (hasCb : Bool) (lines : List String),
      convertStream (.error e) hasCb lines = .drained)
  ∧ (∀ (pr : Except String Int) (lines : List String),
      convertStream pr false lines = .drained)
  ∧ (∀ (d : Int) (hasCb : Bool) (lines : List String), d ≤ 0 →
      convertStream (.ok d) hasCb lines = .drained)
  ∧ (∀ (pr : Except String Int) (hasCb : Bool) (lines : List String)
        (ps : List Rat), convertStream pr hasCb lines = .parsed ps →
      hasCb = true ∧ ∃ d : Int, pr = .ok d ∧ 0 < d ∧ ps = parseProgress lines d) := by
  refine ⟨?_, ?_, ?_, ?_⟩
  · intro e hasCb lines
    simp [convertStream]
  · intro pr lines
    simp [convertStream]
  · intro d hasCb lines hd
    simp [convertStream, not_lt.mpr hd]
  · intro pr hasCb lines ps h
    cases pr with
    | error e => simp [convertStream] at h
    | ok d =>
      by_cases hd : 0 < d
      · cases hasCb with
        | false => simp [convertStream] at h
        | true =>
          simp [convertStream, hd] at h
          exact ⟨rfl, d, rfl, hd, h.symm⟩
      · simp [convertStream, hd] at h

/-- Witness for C5: a failed probe and a zero duration both drain. -/
theorem probe_failure_nonfatal_app :
    convertStream (.ok 0) true ["out_time_us=5000000"] = .drained ∧
      convertStream (.error "exit status 1") true ["out_time_us=5000000"] = .drained :=
  ⟨probe_failure_nonfatal.2.2.1 0 true ["out_time_us=5000000"] (by decide),
    probe_failure_nonfatal.1 "exit status 1" true ["out_time_us=5000000"]⟩

/-- C3 counterexample: the claim demands that every emitted percentage
equal the marker's elapsed time over the total duration times 100,
clamped into [0,100].  At the marker `out_time_us=10000000000000000`
(which `strconv.ParseInt` accepts) with a 20-second total, the 64-bit
nanosecond conversion `us * 1000` overflows and wraps negative, so the
code emits a negative percentage, while the claim's formula exceeds 100
and would demand exactly 100. -/
theorem progress_overflow_cex :
    parseProgress ["out_time_us=10000000000000000"] 20000000000 =
      [Rat.divInt (-8446744073709551616 * 100) 20000000000]
    ∧ Rat.divInt (-8446744073709551616 * 100) 20000000000 < 0
    ∧ (100 : Rat) < Rat.divInt (10000000000000000 * 1000 * 100) 20000000000 :=
  ⟨by decide, by decide, by decide⟩

/-- C3 amended: the callback fires exactly on lines whose
`out_time_us=<digits>` marker parses as an `int64`; when the nanosecond
conversion `us * 1000` does not overflow `int64`, the emitted percentage
is the marker's time over the total duration times 100 clamped above at
100, which lies in [0,100]; markers whose conversion overflows wrap and
can emit values outside [0,100] (the code clamps only above).  The
claim's concrete examples hold: markers 5000000 and 10000000 with a
20-second total emit exactly 25 and 50, and an overflow-free marker
past the total emits exactly 100. -/
theorem progress_parser_behavior :
    (∀ (total : Int) (line : String), findMarker line.toList = none →
      processLine total line = none)
  ∧ (∀ (total : Int) (line : String) (ds : List Char),
      findMarker line.toList = some ds → parseInt64 ds = none →
      processLine total line = none)
  ∧ (∀ (total : Int) (line : String) (ds : List Char) (us : Int),
      0 < total → findMarker line.toList = some ds → parseInt64 ds = some us →
      us * 1000 ≤ 9223372036854775807 →
      processLine total line =
        some (min ((us : Rat) * 1000 / (total : Rat) * 100) 100)
      ∧ (0 : Rat) ≤ min ((us : Rat) * 1000 / (total : Rat) * 100) 100
      ∧ min ((us : Rat) * 1000 / (total : Rat) * 100) 100 ≤ 100)
  ∧ parseProgress ["out_time_us=5000000", "out_time_us=10000000"] 20000000000 = [25, 50]
  ∧ processLine 20000000000 "out_time_us=30000000" = some 100 := by
  refine ⟨?_, ?_, ?_, by decide, by decide⟩
  · intro total line hfind
    simp only [String.toList] at hfind
    simp [processLine, hfind]
  · intro total line ds hfind hparse
    simp only [String.toList] at hfind
    simp [processLine, hfind, hparse]
  · intro total line ds us htotal hfind hparse hbound
    simp only [String.toList] at hfind
    have hus : 0 ≤ us := by
      unfold parseInt64 at hparse
      split at hparse
      · obtain rfl := Option.some.injEq .. ▸ hparse.symm
        exact Int.ofNat_nonneg _
      · exact absurd hparse (by simp)
    have hwrap : int64wrap (us * 1000) = us * 1000 := by
      unfold int64wrap
      have h1 : 0 ≤ us * 1000 := by positivity
      rw [Int.emod_eq_of_lt h1 (by omega), if_neg (by omega)]
    have hdiv : Rat.divInt (us * 1000 * 100) total = (us : Rat) * 1000 / (total : Rat) * 100 := by
      rw [Rat.divInt_eq_div]
      push_cast
      ring
    have htQ : (0 : Rat) < (total : Rat) := by exact_mod_cast htotal
    have husQ : (0 : Rat) ≤ (us : Rat) := by exact_mod_cast hus
    have hx0 : (0 : Rat) ≤ (us : Rat) * 1000 / (total : Rat) * 100 := by positivity
    refine ⟨?_, le_min hx0 (by norm_num), min_le_right _ _⟩
    simp only [processLine, String.toList, hfind, hparse, hwrap, hdiv]
    rcases le_or_lt ((us : Rat) * 1000 / (total : Rat) * 100) 100 with h | h
    · rw [if_neg (not_lt.mpr h), min_eq_left h]
    · rw [if_pos h, min_eq_right h.le]

/-- Witness for the amended C3 at marker 5000000 with a 20-second
total. -/
theorem progress_parser_behavior_app :
    processLine 20000000000 "out_time_us=5000000" =
      some (min (((5000000 : Int) : Rat) * 1000 / ((20000000000 : Int) : Rat) * 100) 100) :=
  (progress_parser_behavior.2.2.1 20000000000 "out_time_us=5000000"
    ['5', '0', '0', '0', '0', '0', '0'] 5000000 (by decide) (by decide) (by decide)
    (by decide)).1

/-- C10: a marker whose digit string exceeds `math.MaxInt64` fails
`strconv.ParseInt`; the line is silently skipped and the surrounding
lines are processed as if it were absent. -/
theorem parser_skips_unparsable :
    (∀ (total : Int) (lines₁ : List String) (line : String) (lines₂ : List String)
        (ds : List Char),
      findMarker line.toList = some ds → 9223372036854775807 < digitsVal ds →
      parseProgress (lines₁ ++ line :: lines₂) total =
        parseProgress lines₁ total ++ parseProgress lines₂ total)
  ∧ processLine 20000000000 "out_time_us=9223372036854775808" = none := by
  constructor
  · intro total l₁ line l₂ ds hfind hover
    have hint : parseInt64 ds = none := by
      unfold parseInt64
      rw [if_neg (by omega)]
    have hnone : processLine total line = none := by
      simp only [String.toList] at hfind
      simp [processLine, hfind, hint]
    unfold parseProgress
    rw [List.filterMap_append]
    simp [hnone]
  · decide

/-- Witness for C10: the 2^63 marker is skipped between two other
lines. -/
theorem parser_skips_unparsable_app :
    parseProgress (["frame=1"] ++ "out_time_us=9223372036854775808" ::
        ["out_time_us=5000000"]) 20000000000 =
      parseProgress ["frame=1"] 20000000000 ++
        parseProgress ["out_time_us=5000000"] 20000000000 :=
  parser_skips_unparsable.1 20000000000 ["frame=1"] "out_time_us=9223372036854775808"
    ["out_time_us=5000000"]
    ['9', '2', '2', '3', '3', '7', '2', '0', '3', '6', '8', '5', '4', '7', '7', '5', '8', '0', '8']
    (by decide) (by decide)

end FKConverter
